import Mathlib

/-!
Shallow embedding of the jira-cli tool (src/main.go) and verification of its
specification claims.

Modelling conventions:
* Go strings are Lean `String`s; `strings.EqualFold` is modelled by comparing
  `String.toLower` images (ASCII folding, which covers all state/status names
  used by the program).
* Go `float64` story points are modelled as exact rationals `ℚ`; the Go
  conversion `int(x)` truncates toward zero, modelled by `intTrunc`.
* Effectful operations (HTTP fetches, stdin reads) are modelled by passing
  their results in explicitly: a fetch result is an `Except String` value, a
  read from stdin is an `Option String` (`none` = read error).  `log.Fatalf`
  aborts are modelled as explicit `fatal` outcomes.
-/

deriving instance DecidableEq for Except

namespace JiraCli

/-- A sprint as decoded from the tracker (`Sprint` in main.go). -/
structure Sprint where
  id : Int
  name : String
  state : String
deriving Repr, DecidableEq, Inhabited

/-- The fields of an issue (`IssueFields` in main.go); the nested
`issuetype.name` / `status.name` objects are flattened to their names. -/
structure IssueFields where
  summary : String
  issueTypeName : String
  statusName : String
  points : ℚ
  sprints : List Sprint
deriving Repr, DecidableEq, Inhabited

/-- An issue (`JiraIssue` in main.go). -/
structure JiraIssue where
  key : String
  fields : IssueFields
deriving Repr, DecidableEq, Inhabited

/-- An available workflow transition (`Transition` in main.go); `to.name`
is flattened to `toName`. -/
structure Transition where
  id : String
  toName : String
deriving Repr, DecidableEq, Inhabited

/-- Model of Go `strings.EqualFold` (ASCII case folding), stated on the
character lists underlying the strings. -/
def eqFold (a b : String) : Bool :=
  a.data.map Char.toLower == b.data.map Char.toLower

/-- `sprintName` from main.go: the effective sprint label of an issue.
Empty list gives "Backlog"; otherwise the first sprint whose state is
exactly `"active"` (the Go code uses `==`, not `strings.EqualFold` here);
otherwise the last sprint's name. -/
def sprintName (s : List Sprint) : String :=
  if s.isEmpty then "Backlog"
  else
    match s.find? (fun sp => sp.state == "active") with
    | some sp => sp.name
    | none => (s.getLast?.getD default).name

/-- `findActiveSprint` from main.go: scan issues in order, and within each
issue its sprint list in order; return the first sprint whose state equals
"active" case-insensitively, else the error message from the Go code. -/
def findActiveSprint : List JiraIssue → Except String Sprint
  | [] => .error "no active sprint found in current issues"
  | ji :: rest =>
    match ji.fields.sprints.find? (fun sp => eqFold sp.state "active") with
    | some sp => .ok sp
    | none => findActiveSprint rest

/-- The diagnostic message built by `transitionIssue` in main.go when no
transition matches (Go `%q` renders the target in double quotes). -/
def noSuchTransitionMsg (transitions : List Transition) (issueKey targetStatus : String) : String :=
  "no transition to \"" ++ targetStatus ++ "\" for issue " ++ issueKey
    ++ " (available: " ++ String.intercalate ", " (transitions.map (fun t => t.toName)) ++ ")"

/-- Outcome of the matching phase of `transitionIssue`: either the id of the
transition submitted to the tracker, or the NoSuchTransition error. -/
inductive TransitionOutcome where
  | submitted (id : String)
  | noSuchTransition (msg : String)
deriving Repr, DecidableEq

/-- `transitionIssue` from main.go, after the transitions have been fetched:
pick the first transition (in returned order) whose target name matches the
requested status case-insensitively; submit its id, or fail with the
enumerating error message. -/
def transitionIssue (transitions : List Transition) (issueKey targetStatus : String) :
    TransitionOutcome :=
  match transitions.find? (fun t => eqFold t.toName targetStatus) with
  | some t => .submitted t.id
  | none => .noSuchTransition (noSuchTransitionMsg transitions issueKey targetStatus)

/-- Truncation toward zero, the behaviour of Go's `int(x)` conversion. -/
def intTrunc (q : ℚ) : Int :=
  if 0 ≤ q then ⌊q⌋ else ⌈q⌉

/-- `formatPoints` from main.go: `0` renders as "-", anything else as
`strconv.Itoa(int(p + 0.5))`. -/
def formatPoints (p : ℚ) : String :=
  if p = 0 then "-" else toString (intTrunc (p + 1/2))

/-- Append an issue to the group keyed `k` of an association list of groups,
creating the group at the end when none exists yet.  This is the effect of
`groups[n] = append(groups[n], ji)` on a Go map, with the map rendered as an
association list in first-insertion order (Go map iteration order is
unspecified; a deterministic order must be fixed to model the render loop). -/
def addToGroup (groups : List (String × List JiraIssue)) (k : String) (ji : JiraIssue) :
    List (String × List JiraIssue) :=
  match groups with
  | [] => [(k, [ji])]
  | (k2, l) :: rest =>
    if k2 = k then (k2, l ++ [ji]) :: rest else (k2, l) :: addToGroup rest k ji

/-- The grouping loop of `formatIssuesBySprint` in main.go: every issue is
appended to the group named by its effective sprint label. -/
def groupBySprint (issues : List JiraIssue) : List (String × List JiraIssue) :=
  issues.foldl (fun gs ji => addToGroup gs (sprintName ji.fields.sprints) ji) []

/-- One rendered issue line of the report: Go
`fmt.Sprintf("  %s\t%s\t%s\t%s\t%s", ...)` — note the two leading spaces. -/
def issueLine (ji : JiraIssue) : String :=
  "  " ++ ji.key ++ "\t" ++ formatPoints ji.fields.points ++ "\t"
    ++ ji.fields.statusName ++ "\t" ++ ji.fields.issueTypeName ++ "\t" ++ ji.fields.summary

/-- One rendered group header: Go `fmt.Sprintf("Sprint: %s (%d issues, %s pts)", ...)`. -/
def groupHeader (label : String) (list : List JiraIssue) (total : ℚ) : String :=
  "Sprint: " ++ label ++ " (" ++ toString list.length ++ " issues, "
    ++ formatPoints total ++ " pts)"

/-- The rendering loop of `formatIssuesBySprint` in main.go, producing the
list of lines: for each group, the points are totalled by a running sum,
then the header, the issue lines and an empty separator line are appended
to the accumulated line list. -/
def reportLines (issues : List JiraIssue) : List String :=
  (groupBySprint issues).foldl
    (fun lines g =>
      lines
        ++ [groupHeader g.1 g.2 (g.2.foldl (fun acc ji => acc + ji.fields.points) 0)]
        ++ g.2.map issueLine
        ++ [""])
    []

/-- `formatIssuesBySprint` from main.go: the lines joined by newlines. -/
def formatIssuesBySprint (issues : List JiraIssue) : String :=
  String.intercalate "\n" (reportLines issues)

/-- `issueLabel` from main.go. -/
def issueLabel (i : JiraIssue) : String :=
  if i.fields.statusName = "" then i.key ++ "  " ++ i.fields.summary
  else i.key ++ "  " ++ i.fields.summary ++ "  [" ++ i.fields.statusName ++ "]"

/-- Model of Go `strings.TrimSpace`, on the underlying character list. -/
def strTrim (s : String) : String :=
  ⟨((s.data.dropWhile Char.isWhitespace).reverse.dropWhile Char.isWhitespace).reverse⟩

/-- Model of Go `strconv.Atoi`: an optional single sign followed by ASCII
digits; anything else is an error (`none`).  Overflow is not modelled: the
selection bound check right after the call rejects any huge value anyway. -/
def atoi (s : String) : Option Int :=
  match s.data with
  | [] => none
  | c :: rest =>
    if c = '-' then (digitsToNat rest).map (fun n => -(n : Int))
    else if c = '+' then (digitsToNat rest).map (fun n => (n : Int))
    else (digitsToNat (c :: rest)).map (fun n => (n : Int))
where
  /-- The digit-string value, or `none` if empty or not all ASCII digits. -/
  digitsToNat (l : List Char) : Option Nat :=
    if l ≠ [] ∧ l.all Char.isDigit then
      some (l.foldl (fun n c => n * 10 + (c.toNat - '0'.toNat)) 0)
    else none

/-- Result of `pickFromList` in main.go: `-1` on an empty (trimmed) answer is
`cancelled`; a read error or a non-numeric/out-of-range answer calls
`log.Fatalf`, modelled as `fatalError`; otherwise the zero-based index. -/
inductive PickResult where
  | cancelled
  | fatalError
  | picked (idx : Nat)
deriving Repr, DecidableEq

/-- `pickFromList` from main.go, with the line read from stdin passed in
explicitly (`none` models a read error).  The printing of the options and of
the `"(1-n, empty to cancel)"` prompt is an output side effect that happens
exactly when this function runs. -/
def pickFromList (label : String) (items : List String) (input : Option String) : PickResult :=
  match input with
  | none => .fatalError
  | some line =>
    if strTrim line = "" then .cancelled
    else
      match atoi (strTrim line) with
      | none => .fatalError
      | some n =>
        if n < 1 ∨ (items.length : Int) < n then .fatalError
        else .picked (n - 1).toNat

/-- The filter test of `selectIssue` in main.go: `filter == nil || filter(ji)`. -/
def passesFilter (filter : Option (JiraIssue → Bool)) (ji : JiraIssue) : Bool :=
  match filter with
  | none => true
  | some f => f ji

/-- Result of `selectIssue` in main.go: `(nil, err)` is `fetchFailed`,
`(nil, nil)` is `noSelection`, a `log.Fatalf` inside `pickFromList` is
`fatalStop`, and `(&issue, nil)` is `selected`. -/
inductive SelectResult where
  | fetchFailed (e : String)
  | noSelection
  | fatalStop
  | selected (ji : JiraIssue)
deriving Repr, DecidableEq

/-- `selectIssue` from main.go, with the fetch result and the stdin line
passed in explicitly.  The returned `Bool` records whether `pickFromList`
was invoked (and hence whether a prompt was printed and stdin read).
The grouped report print before filtering is an output-only side effect and
is not tracked.  The `list[idx]` access is modelled by `List.get?`; its
`none` branch is unreachable (see the prompt-safety theorem). -/
def selectIssue (fetched : Except String (List JiraIssue))
    (filter : Option (JiraIssue → Bool)) (prompt : String) (input : Option String) :
    SelectResult × Bool :=
  match fetched with
  | .error e => (.fetchFailed e, false)
  | .ok issues =>
    let list := issues.filter (passesFilter filter)
    if list.isEmpty then (.noSelection, false)
    else
      match pickFromList prompt (list.map issueLabel) input with
      | .cancelled => (.noSelection, true)
      | .fatalError => (.fatalStop, true)
      | .picked idx =>
        match list[idx]? with
        | some ji => (.selected ji, true)
        | none => (.fatalStop, true)

/-- The fixed status menu of `interactiveFlow` in main.go. -/
def statuses : List String :=
  ["Open", "In Progress", "In Review", "In Testing", "Resolved"]

/-- Model of Go `strings.ToUpper` on the underlying character list. -/
def strToUpper (s : String) : String :=
  ⟨s.data.map Char.toUpper⟩

/-- Outcome of `moveFlow` in main.go.  `moved` records the sprint id and the
issue key submitted to `addIssueToSprint` together with the key shown in the
success message; the remote result of `addIssueToSprint` itself is not
modelled (it does not influence which key is submitted). -/
inductive MoveOutcome where
  | stopped
  | fatalStop
  | failed (e : String)
  | moved (sprintId : Int) (sentKey : String) (messageKey : String)
deriving Repr, DecidableEq

/-- The tail of `moveFlow` (and of `moveIssueToCurrentSprint`) in main.go:
re-fetch the issues, resolve the active sprint among them, and submit the
given key to `addIssueToSprint`; the success message upper-cases the key. -/
def moveWithKey (fetchMove : Except String (List JiraIssue)) (key : String) : MoveOutcome :=
  match fetchMove with
  | .error e => .failed e
  | .ok issues =>
    match findActiveSprint issues with
    | .error e => .failed e
    | .ok s => .moved s.id key (strToUpper key)

/-- `moveFlow` from main.go: with an empty key argument, pick an issue with
no sprints via `selectIssue` (no selection or cancellation stops silently);
then move whatever key was supplied or selected. -/
def moveFlow (issueKey : String) (fetchSelect fetchMove : Except String (List JiraIssue))
    (input : Option String) : MoveOutcome :=
  if issueKey = "" then
    match selectIssue fetchSelect (some (fun j => j.fields.sprints.isEmpty))
        "Select issue to move" input with
    | (.fetchFailed e, _) => .failed e
    | (.noSelection, _) => .stopped
    | (.fatalStop, _) => .fatalStop
    | (.selected ji, _) => moveWithKey fetchMove ji.key
  else moveWithKey fetchMove issueKey

/-- Model of Go `strings.TrimRight(s, "/")` as used in `main`: strip every
trailing '/' from the configured base URL. -/
def trimTrailingSlashes (s : String) : String :=
  ⟨(s.data.reverse.dropWhile (fun c => c = '/')).reverse⟩

/-- The credential/configuration value built at startup (`JiraConfig` and the
`main` initialisation in main.go): the base URL from the environment is
normalised before any request is issued. -/
structure JiraConfig where
  email : String
  url : String
  token : String
deriving Repr, DecidableEq

/-- The `cfg` value `main` constructs from the environment variables. -/
def mkConfig (email urlEnv token : String) : JiraConfig :=
  { email := email, url := trimTrailingSlashes urlEnv, token := token }

/-- The request URL of `getIssues` in main.go. -/
def searchURL (cfg : JiraConfig) : String :=
  cfg.url ++ "/rest/api/3/search/jql"

/-- The request URL of `getTransitions` / `transitionIssue` in main.go. -/
def transitionsURL (cfg : JiraConfig) (issueKey : String) : String :=
  cfg.url ++ "/rest/api/3/issue/" ++ issueKey ++ "/transitions"

/-- The request URL of `addIssueToSprint` in main.go. -/
def sprintIssueURL (cfg : JiraConfig) (sprintId : Int) : String :=
  cfg.url ++ "/rest/agile/1.0/sprint/" ++ toString sprintId ++ "/issue"

/-- The effective sprint label of an issue (spec §3 invariant), as computed
by the code: `sprintName(ji.Fields.Sprints)`. -/
def effectiveLabel (ji : JiraIssue) : String :=
  sprintName ji.fields.sprints

/-- Concrete issue list used to exercise `findActiveSprint`: the active
sprint sits on the second issue, after a closed one. -/
def sampleIssues : List JiraIssue :=
  [⟨"B", ⟨"other", "Task", "Open", 0, [⟨7, "Old", "closed"⟩]⟩⟩,
   ⟨"A", ⟨"work", "Task", "Open", 0, [⟨1, "S1", "Active"⟩]⟩⟩]

/-- Concrete transition list from the spec scenario: two transitions, with
the requested target "done" matching the second case-insensitively. -/
def sampleTransitions : List Transition :=
  [⟨"11", "In Progress"⟩, ⟨"21", "Done"⟩]

/-- Concrete backlog issue (no sprints, zero points) used to exercise the
report renderer on an input where every string is kernel-computable. -/
def backlogIssue : JiraIssue :=
  ⟨"B", ⟨"Fix", "Bug", "Open", 0, []⟩⟩

end JiraCli

namespace JiraCli

/-! ## General lemmas about first matches and folds -/

lemma find?_eq_some_of_first {α : Type _} (p : α → Bool) (l : List α) :
    ∀ (i : Nat) (hi : i < l.length),
      p (l.get ⟨i, hi⟩) = true →
      (∀ (j : Nat) (hj : j < l.length), j < i → p (l.get ⟨j, hj⟩) = false) →
      l.find? p = some (l.get ⟨i, hi⟩) := by
  induction l with
  | nil => intro i hi; simp at hi
  | cons a t ih =>
    intro i hi hp hmin
    cases i with
    | zero =>
      simp only [List.get] at hp
      simp [List.find?_cons, hp]
    | succ n =>
      have ha : p a = false := hmin 0 (by simp) (Nat.succ_pos n)
      have hn : n < t.length := by simpa using hi
      have ht := ih n hn (by simpa using hp)
        (fun j hj hji => by
          have := hmin (j + 1) (by simpa using Nat.succ_lt_succ hj) (Nat.succ_lt_succ hji)
          simpa using this)
      simp [List.find?_cons, ha, ht]

/-! ## C1 — effective sprint label -/

/-- C1 (counterexample): the claim matches the active state
case-insensitively, but `sprintName` in the code compares with `==`.
For the list `[{1, "S1", "Active"}, {2, "S2", "closed"}]` the claim demands
the label "S1" (state "Active" equals "active" case-insensitively), yet the
code falls through to the last-listed sprint and yields "S2". -/
theorem sprintName_claim_counterexample :
    sprintName [⟨1, "S1", "Active"⟩, ⟨2, "S2", "closed"⟩] = "S2"
    ∧ eqFold "Active" "active" = true
    ∧ "S2" ≠ "S1" := by
  decide

/-- C1 (amended): the effective sprint label of an issue is "Backlog" for an
empty sprint list; else the name of the first sprint whose state equals
"active" exactly (case-sensitively); else the name of the last-listed
sprint. -/
theorem sprintName_effective_label (s : List Sprint) :
    (s = [] → sprintName s = "Backlog")
    ∧ (∀ (i : Nat) (hi : i < s.length),
        (s.get ⟨i, hi⟩).state = "active" →
        (∀ (j : Nat) (hj : j < s.length), j < i → (s.get ⟨j, hj⟩).state ≠ "active") →
        sprintName s = (s.get ⟨i, hi⟩).name)
    ∧ (s ≠ [] → (∀ sp ∈ s, sp.state ≠ "active") →
        ∃ h : s ≠ [], sprintName s = (s.getLast h).name) := by
  refine ⟨fun hs => by simp [hs, sprintName], ?_, ?_⟩
  · intro i hi hp hmin
    have hne : s ≠ [] := List.ne_nil_of_length_pos (Nat.lt_of_le_of_lt (Nat.zero_le i) hi)
    have hfind : s.find? (fun sp => sp.state == "active") = some (s.get ⟨i, hi⟩) := by
      apply find?_eq_some_of_first
      · simpa using hp
      · intro j hj hji
        simpa using hmin j hj hji
    simp [sprintName, hne, hfind]
  · intro hne hnone
    refine ⟨hne, ?_⟩
    have hfind : s.find? (fun sp => sp.state == "active") = none := by
      rw [List.find?_eq_none]
      intro sp hsp
      simpa using hnone sp hsp
    simp [sprintName, hne, hfind, List.getLast?_eq_getLast s hne]

/-- C1 (witness): for the list with states closed, active, future, the
amended claim yields the middle sprint's name. -/
theorem sprintName_effective_label_witness :
    sprintName [⟨1, "S1", "closed"⟩, ⟨2, "S2", "active"⟩, ⟨3, "S3", "future"⟩] = "S2" :=
  (sprintName_effective_label _).2.1 1 (by decide) (by decide) (by decide)

/-! ## C3 — transition matching -/

/-- C3: `transitionIssue` fails with the NoSuchTransition error enumerating
every available target name exactly when no fetched transition's target name
equals the requested one case-insensitively; otherwise it submits the id of
the first (in returned order) case-insensitively matching transition. -/
theorem transitionIssue_first_match (ts : List Transition) (key target : String) :
    (transitionIssue ts key target
        = .noSuchTransition (noSuchTransitionMsg ts key target)
      ↔ ∀ t ∈ ts, eqFold t.toName target = false)
    ∧ (∀ (i : Nat) (hi : i < ts.length),
        eqFold (ts.get ⟨i, hi⟩).toName target = true →
        (∀ (j : Nat) (hj : j < ts.length), j < i → eqFold (ts.get ⟨j, hj⟩).toName target = false) →
        transitionIssue ts key target = .submitted (ts.get ⟨i, hi⟩).id) := by
  constructor
  · constructor
    · intro hres t ht
      by_contra hmatch
      rw [Bool.not_eq_false] at hmatch
      rcases hfind : ts.find? (fun t => eqFold t.toName target) with _ | t2
      · rw [List.find?_eq_none] at hfind
        exact (hfind t ht) hmatch
      · rw [transitionIssue, hfind] at hres
        exact TransitionOutcome.noConfusion hres
    · intro hall
      have hfind : ts.find? (fun t => eqFold t.toName target) = none := by
        rw [List.find?_eq_none]
        intro t ht
        simp [hall t ht]
      rw [transitionIssue, hfind]
  · intro i hi hp hmin
    have hfind := find?_eq_some_of_first (fun t => eqFold t.toName target) ts i hi hp
      (fun j hj hji => hmin j hj hji)
    rw [transitionIssue, hfind]

/-- C3 (witness): the spec scenario — transitions `[{id 11, "In Progress"},
{id 21, "Done"}]` and requested target "done" submit id "21". -/
theorem transitionIssue_first_match_witness :
    transitionIssue sampleTransitions "ABC-1" "done" = .submitted "21" := by
  have h := (transitionIssue_first_match sampleTransitions "ABC-1" "done").2
    1 (by decide) (by decide) (by decide)
  exact h.trans (by decide)

/-! ## C4 — active sprint resolution -/

lemma findActiveSprint_eq_find (issues : List JiraIssue) :
    findActiveSprint issues =
      match (issues.flatMap (fun ji => ji.fields.sprints)).find?
          (fun sp => eqFold sp.state "active") with
      | some sp => Except.ok sp
      | none => Except.error "no active sprint found in current issues" := by
  induction issues with
  | nil => rfl
  | cons ji rest ih =>
    rw [findActiveSprint, List.flatMap_cons, List.find?_append]
    rcases h : ji.fields.sprints.find? (fun sp => eqFold sp.state "active") with _ | sp
    · simp [h, ih, Option.orElse]
    · simp [h, Option.orElse]

/-- C4: `findActiveSprint` returns the first sprint — scanning issues in
list order and each issue's sprint list in order — whose state equals
"active" case-insensitively, and fails with the NoActiveSprint error exactly
when no sprint in the entire set is active. -/
theorem findActiveSprint_first_active (issues : List JiraIssue) :
    (findActiveSprint issues = Except.error "no active sprint found in current issues"
      ↔ ∀ ji ∈ issues, ∀ sp ∈ ji.fields.sprints, eqFold sp.state "active" = false)
    ∧ (∀ (i : Nat) (hi : i < (issues.flatMap (fun ji => ji.fields.sprints)).length),
        eqFold ((issues.flatMap (fun ji => ji.fields.sprints)).get ⟨i, hi⟩).state "active" = true →
        (∀ (j : Nat) (hj : j < (issues.flatMap (fun ji => ji.fields.sprints)).length), j < i →
          eqFold ((issues.flatMap (fun ji => ji.fields.sprints)).get ⟨j, hj⟩).state "active" = false) →
        findActiveSprint issues
          = Except.ok ((issues.flatMap (fun ji => ji.fields.sprints)).get ⟨i, hi⟩)) := by
  constructor
  · rw [findActiveSprint_eq_find]
    rcases hfind : (issues.flatMap (fun ji => ji.fields.sprints)).find?
        (fun sp => eqFold sp.state "active") with _ | sp
    · rw [hfind]
      rw [List.find?_eq_none] at hfind
      simp only [Bool.not_eq_true] at hfind
      constructor
      · intro _ ji hji sp hsp
        exact hfind sp (List.mem_flatMap.mpr ⟨ji, hji, hsp⟩)
      · intro _; rfl
    · rw [hfind]
      constructor
      · intro hres; simp at hres
      · intro hall
        have hsp := List.mem_of_find?_eq_some hfind
        have hp := List.find?_some hfind
        rcases List.mem_flatMap.mp hsp with ⟨ji, hji, hspji⟩
        rw [hall ji hji sp hspji] at hp
        exact absurd hp (by simp)
  · intro i hi hp hmin
    rw [findActiveSprint_eq_find,
      find?_eq_some_of_first (fun sp => eqFold sp.state "active") _ i hi hp hmin]

/-- C4 (witness): with a closed sprint on the first issue and a mixed-case
active one on the second, the second issue's sprint is returned. -/
theorem findActiveSprint_first_active_witness :
    findActiveSprint sampleIssues = Except.ok ⟨1, "S1", "Active"⟩ := by
  have h := (findActiveSprint_first_active sampleIssues).2 1 (by decide) (by decide) (by decide)
  exact h.trans (by decide)

/-! ## C6 — point formatting -/

lemma formatPoints_of_ne (p : ℚ) (hp : p ≠ 0) :
    formatPoints p = toString (intTrunc (p + 1/2)) := by
  simp [formatPoints, hp]

/-- C6 (counterexample): the claim rounds every non-zero value half-up to
the nearest integer, but the Go conversion `int(p + 0.5)` truncates toward
zero: at `p = -2.4` the code yields "-1" while the nearest integer under
round-half-up (`⌊p + 1/2⌋`, the rule the claim itself fixes via its
2.5 ↦ "3" example) is -2. -/
theorem formatPoints_claim_counterexample :
    formatPoints (-(12/5) : ℚ) = "-1"
    ∧ toString ⌊(-(12/5) : ℚ) + 1/2⌋ = "-2" := by
  constructor
  · rw [formatPoints_of_ne _ (by norm_num), intTrunc, if_neg (by norm_num)]
    have h : ⌈(-(12/5) : ℚ) + 1/2⌉ = -1 := by
      rw [Int.ceil_eq_iff]
      norm_num
    rw [h]; decide
  · have h : ⌊(-(12/5) : ℚ) + 1/2⌋ = -2 := by norm_num
    rw [h]; decide

/-- C6 (amended): `formatPoints` maps 0 to "-"; every positive point value
is rounded half-up to the nearest integer (`⌊p + 1/2⌋`) and rendered as a
plain decimal string (negative values instead truncate `p + 0.5` toward
zero); in particular 2.5 renders as "3" and 2.4 as "2". -/
theorem formatPoints_rounds (p : ℚ) (hp : 0 < p) :
    formatPoints 0 = "-"
    ∧ formatPoints p = toString ⌊p + 1/2⌋
    ∧ formatPoints (5/2 : ℚ) = "3"
    ∧ formatPoints (12/5 : ℚ) = "2" := by
  refine ⟨by decide, ?_, ?_, ?_⟩
  · rw [formatPoints_of_ne _ (ne_of_gt hp), intTrunc, if_pos (by linarith)]
  · rw [formatPoints_of_ne _ (by norm_num), intTrunc, if_pos (by norm_num)]
    have h : ⌊(5/2 : ℚ) + 1/2⌋ = 3 := by norm_num
    rw [h]; decide
  · rw [formatPoints_of_ne _ (by norm_num), intTrunc, if_pos (by norm_num)]
    have h : ⌊(12/5 : ℚ) + 1/2⌋ = 2 := by norm_num
    rw [h]; decide

/-- C6 (witness): the amended rounding clause instantiated at 2.5. -/
theorem formatPoints_rounds_witness :
    formatPoints (5/2 : ℚ) = toString ⌊(5/2 : ℚ) + 1/2⌋ :=
  (formatPoints_rounds (5/2 : ℚ) (by norm_num)).2.1

/-! ## C5 — grouping is an exact partition -/

lemma addToGroup_flatMap_perm (k : String) (ji : JiraIssue) :
    ∀ gs : List (String × List JiraIssue),
      ((addToGroup gs k ji).flatMap Prod.snd).Perm (gs.flatMap Prod.snd ++ [ji])
  | [] => by simp [addToGroup]
  | (k2, l) :: rest => by
    by_cases hk : k2 = k
    · simp only [addToGroup, if_pos hk, List.flatMap_cons]
      have h2 := (@List.perm_append_comm _ [ji] (rest.flatMap Prod.snd)).append_left l
      simpa [List.append_assoc] using h2
    · simp only [addToGroup, if_neg hk, List.flatMap_cons]
      have h2 := (addToGroup_flatMap_perm k ji rest).append_left l
      simpa [List.append_assoc] using h2

lemma addToGroup_label_inv (k : String) (ji : JiraIssue) (hji : effectiveLabel ji = k) :
    ∀ gs : List (String × List JiraIssue),
      (∀ g ∈ gs, ∀ x ∈ g.2, effectiveLabel x = g.1) →
      ∀ g ∈ addToGroup gs k ji, ∀ x ∈ g.2, effectiveLabel x = g.1
  | [] => by
    intro _ g hg x hx
    simp only [addToGroup, List.mem_singleton] at hg
    subst hg
    simp only [List.mem_singleton] at hx
    subst hx
    simpa using hji
  | (k2, l) :: rest => by
    intro hinv g hg x hx
    by_cases hk : k2 = k
    · simp only [addToGroup, if_pos hk] at hg
      rcases List.mem_cons.mp hg with hg | hg
      · subst hg
        rcases List.mem_append.mp hx with hx2 | hx2
        · exact hinv (k2, l) (List.mem_cons_self _ _) x hx2
        · simp only [List.mem_singleton] at hx2
          subst hx2
          rw [hji, hk]
      · exact hinv g (List.mem_cons_of_mem _ hg) x hx
    · simp only [addToGroup, if_neg hk] at hg
      rcases List.mem_cons.mp hg with hg | hg
      · subst hg
        exact hinv (k2, l) (List.mem_cons_self _ _) x hx
      · exact addToGroup_label_inv k ji hji rest
          (fun g2 hg2 => hinv g2 (List.mem_cons_of_mem _ hg2)) g hg x hx

lemma addToGroup_keys (k : String) (ji : JiraIssue) :
    ∀ gs : List (String × List JiraIssue),
      (addToGroup gs k ji).map Prod.fst
        = if k ∈ gs.map Prod.fst then gs.map Prod.fst else gs.map Prod.fst ++ [k]
  | [] => by simp [addToGroup]
  | (k2, l) :: rest => by
    by_cases hk : k2 = k
    · simp only [addToGroup, if_pos hk, List.map_cons]
      rw [if_pos (by simp [hk.symm])]
    · simp only [addToGroup, if_neg hk, List.map_cons]
      rw [addToGroup_keys k ji rest]
      by_cases hmem : k ∈ rest.map Prod.fst
      · rw [if_pos hmem, if_pos (by simp [hmem])]
      · rw [if_neg hmem, if_neg (by
          simp only [List.mem_cons]
          rintro (h | h)
          · exact hk h.symm
          · exact hmem h)]
        simp

lemma addToGroup_keys_nodup (k : String) (ji : JiraIssue)
    (gs : List (String × List JiraIssue)) (h : (gs.map Prod.fst).Nodup) :
    ((addToGroup gs k ji).map Prod.fst).Nodup := by
  rw [addToGroup_keys]
  split_ifs with hmem
  · exact h
  · rw [List.nodup_append]
    refine ⟨h, List.nodup_singleton k, ?_⟩
    intro x hx hxk
    simp only [List.mem_singleton] at hxk
    subst hxk
    exact hmem hx

lemma groupBySprint_aux_inv :
    ∀ (issues : List JiraIssue) (gs : List (String × List JiraIssue)),
      (gs.map Prod.fst).Nodup →
      (∀ g ∈ gs, ∀ x ∈ g.2, effectiveLabel x = g.1) →
      ((issues.foldl (fun g ji => addToGroup g (sprintName ji.fields.sprints) ji) gs).map
          Prod.fst).Nodup
      ∧ (∀ g ∈ issues.foldl (fun g ji => addToGroup g (sprintName ji.fields.sprints) ji) gs,
          ∀ x ∈ g.2, effectiveLabel x = g.1)
  | [], _gs => fun h1 h2 => ⟨h1, h2⟩
  | ji :: rest, gs => fun h1 h2 => by
    apply groupBySprint_aux_inv rest
    · exact addToGroup_keys_nodup _ _ _ h1
    · exact addToGroup_label_inv _ _ rfl gs h2

lemma groupBySprint_aux_perm :
    ∀ (issues : List JiraIssue) (gs : List (String × List JiraIssue)),
      ((issues.foldl (fun g ji => addToGroup g (sprintName ji.fields.sprints) ji) gs).flatMap
          Prod.snd).Perm
        (gs.flatMap Prod.snd ++ issues)
  | [], _gs => by simp
  | ji :: rest, gs => by
    have h1 := groupBySprint_aux_perm rest (addToGroup gs (sprintName ji.fields.sprints) ji)
    have h2 := (addToGroup_flatMap_perm (sprintName ji.fields.sprints) ji gs).append_right rest
    have h3 := h1.trans h2
    simpa [List.append_assoc] using h3

lemma groupBySprint_perm (issues : List JiraIssue) :
    ((groupBySprint issues).flatMap Prod.snd).Perm issues := by
  simpa [groupBySprint] using groupBySprint_aux_perm issues []

lemma groupBySprint_inv (issues : List JiraIssue) :
    ((groupBySprint issues).map Prod.fst).Nodup
    ∧ ∀ g ∈ groupBySprint issues, ∀ x ∈ g.2, effectiveLabel x = g.1 := by
  simpa [groupBySprint] using groupBySprint_aux_inv issues [] (by simp) (by simp)

/-- C5: grouping by effective sprint label is an exact partition: every
input issue appears in exactly one group, and the group issue counts sum to
the number of input issues. -/
theorem groupBySprint_partition (issues : List JiraIssue) :
    (((groupBySprint issues).map (fun g => g.2.length)).sum = issues.length)
    ∧ ∀ ji ∈ issues, ∃ g, g ∈ groupBySprint issues ∧ ji ∈ g.2
        ∧ ∀ g2 ∈ groupBySprint issues, ji ∈ g2.2 → g2 = g := by
  constructor
  · have hp := (groupBySprint_perm issues).length_eq
    rw [List.length_flatMap] at hp
    simpa [Function.comp] using hp
  · intro ji hji
    have hmem : ji ∈ (groupBySprint issues).flatMap Prod.snd :=
      (groupBySprint_perm issues).mem_iff.mpr hji
    rcases List.mem_flatMap.mp hmem with ⟨g, hg, hjig⟩
    refine ⟨g, hg, hjig, ?_⟩
    intro g2 hg2 hjig2
    have hinv := (groupBySprint_inv issues).2
    have h1 : effectiveLabel ji = g.1 := hinv g hg ji hjig
    have h2 : effectiveLabel ji = g2.1 := hinv g2 hg2 ji hjig2
    exact List.inj_on_of_nodup_map (groupBySprint_inv issues).1 hg2 hg (h2.symm.trans h1)

/-- C5 (witness): in the two-issue sample set, the issue with key "B" lies
in exactly one group of the computed grouping. -/
theorem groupBySprint_partition_witness :
    ∃ g, g ∈ groupBySprint sampleIssues
      ∧ (⟨"B", ⟨"other", "Task", "Open", 0, [⟨7, "Old", "closed"⟩]⟩⟩ : JiraIssue) ∈ g.2
      ∧ ∀ g2 ∈ groupBySprint sampleIssues,
          (⟨"B", ⟨"other", "Task", "Open", 0, [⟨7, "Old", "closed"⟩]⟩⟩ : JiraIssue) ∈ g2.2 →
          g2 = g :=
  (groupBySprint_partition sampleIssues).2 _ (by decide)

/-! ## C2 — report rendering -/

lemma foldl_append_eq_flatMap {α β : Type _} (f : α → List β) :
    ∀ (l : List α) (acc : List β),
      l.foldl (fun lines x => lines ++ f x) acc = acc ++ l.flatMap f
  | [], acc => by simp
  | a :: t, acc => by
    rw [List.foldl_cons, foldl_append_eq_flatMap f t (acc ++ f a), List.flatMap_cons,
      List.append_assoc]

lemma foldl_add_points : ∀ (l : List JiraIssue) (a : ℚ),
    l.foldl (fun acc ji => acc + ji.fields.points) a
      = a + (l.map (fun ji => ji.fields.points)).sum
  | [], a => by simp
  | ji :: t, a => by
    rw [List.foldl_cons, foldl_add_points t (a + ji.fields.points), List.map_cons,
      List.sum_cons]
    ring

lemma reportLines_eq_flatMap (issues : List JiraIssue) :
    reportLines issues = (groupBySprint issues).flatMap
      (fun g => groupHeader g.1 g.2 (g.2.foldl (fun acc ji => acc + ji.fields.points) 0)
        :: (g.2.map issueLine ++ [""])) := by
  rw [reportLines]
  have h : (fun (lines : List String) (g : String × List JiraIssue) =>
      lines ++ [groupHeader g.1 g.2 (g.2.foldl (fun acc ji => acc + ji.fields.points) 0)]
        ++ g.2.map issueLine ++ [""])
      = fun lines g => lines
          ++ (groupHeader g.1 g.2 (g.2.foldl (fun acc ji => acc + ji.fields.points) 0)
            :: (g.2.map issueLine ++ [""])) := by
    funext lines g
    simp [List.append_assoc]
  rw [h, foldl_append_eq_flatMap]
  simp

/-- C2 (amended): the rendered report consists, for each group in turn, of
exactly one header line "Sprint: <label> (<count> issues, <points> pts)",
followed by one line per issue in the group equal to two spaces followed by
"<key>\t<points>\t<status>\t<type>\t<summary>" (so the line is indented and
does not begin with the issue key), followed by one blank separator line. -/
theorem reportLines_structure (issues : List JiraIssue) :
    reportLines issues = (groupBySprint issues).flatMap (fun g =>
      ("Sprint: " ++ g.1 ++ " (" ++ toString g.2.length ++ " issues, "
          ++ formatPoints ((g.2.map (fun ji => ji.fields.points)).sum) ++ " pts)")
        :: (g.2.map (fun ji =>
              "  " ++ ji.key ++ "\t" ++ formatPoints ji.fields.points ++ "\t"
                ++ ji.fields.statusName ++ "\t" ++ ji.fields.issueTypeName ++ "\t"
                ++ ji.fields.summary)
            ++ [""])) := by
  rw [reportLines_eq_flatMap]
  congr 1
  funext g
  rw [foldl_add_points]
  simp [groupHeader, issueLine]

/-- C2 (counterexample): for a single backlog issue, the report's issue line
carries a two-space indent: it differs from
"<key>\t<points>\t<status>\t<type>\t<summary>" and does not begin with the
issue key "B". -/
theorem reportLines_claim_counterexample :
    reportLines [backlogIssue]
      = ["Sprint: Backlog (1 issues, - pts)", "  B\t-\tOpen\tBug\tFix", ""]
    ∧ "  B\t-\tOpen\tBug\tFix" ≠ "B\t-\tOpen\tBug\tFix"
    ∧ ("  B\t-\tOpen\tBug\tFix").data.head? ≠ some 'B' := by
  refine ⟨?_, by decide, by decide⟩
  rw [reportLines_eq_flatMap]
  have hg : groupBySprint [backlogIssue] = [("Backlog", [backlogIssue])] := rfl
  rw [hg]
  have htot : List.foldl (fun acc ji => acc + ji.fields.points) (0 : ℚ) [backlogIssue] = 0 := by
    rw [foldl_add_points]
    simp [backlogIssue]
  simp only [List.flatMap_cons, List.flatMap_nil, List.append_nil, htot]
  have h0 : formatPoints 0 = "-" := by simp [formatPoints]
  simp only [groupHeader, issueLine, backlogIssue, h0]
  decide

/-! ## C9 — base URL normalisation -/

lemma dropWhile_head_not {α : Type _} (p : α → Bool) :
    ∀ (l : List α) (c : α), (l.dropWhile p).head? = some c → p c = false
  | [], c => by simp [List.dropWhile]
  | a :: t, c => by
    by_cases ha : p a
    · rw [List.dropWhile_cons_of_pos ha]
      exact dropWhile_head_not p t c
    · rw [List.dropWhile_cons_of_neg ha]
      intro h
      simp only [List.head?_cons, Option.some.injEq] at h
      subst h
      simpa using ha

lemma trimTrailingSlashes_no_trailing (u : String) :
    ∀ c, (trimTrailingSlashes u).data.getLast? = some c → c ≠ '/' := by
  intro c hc
  rw [trimTrailingSlashes] at hc
  rw [List.getLast?_reverse] at hc
  have h := dropWhile_head_not _ _ _ hc
  simpa using h

lemma trimTrailingSlashes_append_slash (u : String) :
    trimTrailingSlashes (u ++ "/") = trimTrailingSlashes u := by
  rw [trimTrailingSlashes, trimTrailingSlashes, String.data_append]
  simp [List.dropWhile]

/-- C9: the base URL read from the environment is normalised at startup by
stripping all trailing '/' characters (the normalised base never ends in
'/'), every request URL is the normalised base concatenated with a path
beginning with '/', and a configured base URL with or without a trailing
slash produces identical request URLs for every operation. -/
theorem baseURL_normalisation (email u token key : String) (sid : Int) :
    (∀ c, (mkConfig email u token).url.data.getLast? = some c → c ≠ '/')
    ∧ mkConfig email (u ++ "/") token = mkConfig email u token
    ∧ searchURL (mkConfig email (u ++ "/") token) = searchURL (mkConfig email u token)
    ∧ transitionsURL (mkConfig email (u ++ "/") token) key
        = transitionsURL (mkConfig email u token) key
    ∧ sprintIssueURL (mkConfig email (u ++ "/") token) sid
        = sprintIssueURL (mkConfig email u token) sid
    ∧ (∃ p, searchURL (mkConfig email u token) = (mkConfig email u token).url ++ p
        ∧ p.data.head? = some '/')
    ∧ (∃ p, transitionsURL (mkConfig email u token) key = (mkConfig email u token).url ++ p
        ∧ p.data.head? = some '/')
    ∧ (∃ p, sprintIssueURL (mkConfig email u token) sid = (mkConfig email u token).url ++ p
        ∧ p.data.head? = some '/') := by
  have hcfg : mkConfig email (u ++ "/") token = mkConfig email u token := by
    simp [mkConfig, trimTrailingSlashes_append_slash]
  refine ⟨fun c hc => trimTrailingSlashes_no_trailing u c hc, hcfg, by rw [hcfg], by rw [hcfg],
    by rw [hcfg], ?_, ?_, ?_⟩
  · exact ⟨"/rest/api/3/search/jql", rfl, by decide⟩
  · refine ⟨"/rest/api/3/issue/" ++ key ++ "/transitions", ?_, ?_⟩
    · simp [transitionsURL, String.append_assoc]
    · rw [String.data_append, String.data_append]
      rfl
  · refine ⟨"/rest/agile/1.0/sprint/" ++ toString sid ++ "/issue", ?_, ?_⟩
    · simp [sprintIssueURL, String.append_assoc]
    · rw [String.data_append, String.data_append]
      rfl

/-- C9 (witness): for the base URL "https://jira.example.com/" the
normalised base ends in 'm' (not '/'), and adding one more trailing slash
leaves the search request URL unchanged. -/
theorem baseURL_normalisation_witness :
    'm' ≠ '/'
    ∧ searchURL (mkConfig "e" ("https://jira.example.com" ++ "/") "t")
        = searchURL (mkConfig "e" "https://jira.example.com" "t") :=
  ⟨(baseURL_normalisation "e" "https://jira.example.com" "t" "K" 5).1 'm' (by decide),
   (baseURL_normalisation "e" "https://jira.example.com" "t" "K" 5).2.2.1⟩

/-! ## C7 and C10 — the prompt is only reached with options to offer -/

lemma selectIssue_prompted_nonempty (issues : List JiraIssue)
    (filter : Option (JiraIssue → Bool)) (prompt : String) (input : Option String) :
    (selectIssue (Except.ok issues) filter prompt input).2 = true →
    (issues.filter (passesFilter filter)).isEmpty = false := by
  intro hprompt
  cases hemp : (issues.filter (passesFilter filter)).isEmpty with
  | false => rfl
  | true =>
    rw [selectIssue] at hprompt
    simp [hemp] at hprompt

/-- C7: when no fetched assigned issue satisfies the filter predicate,
`selectIssue` returns the no-selection outcome (not an error) without
invoking the prompt or reading input; conversely the prompt is only issued
when the filtered list is non-empty. -/
theorem selectIssue_no_match_no_prompt (issues : List JiraIssue)
    (f : JiraIssue → Bool) (prompt : String) (input : Option String) :
    ((∀ ji ∈ issues, f ji = false) →
      selectIssue (Except.ok issues) (some f) prompt input = (.noSelection, false))
    ∧ (∀ filter : Option (JiraIssue → Bool),
        (selectIssue (Except.ok issues) filter prompt input).2 = true →
        (issues.filter (passesFilter filter)).isEmpty = false) := by
  constructor
  · intro hnone
    have hfilter : issues.filter (passesFilter (some f)) = [] := by
      rw [List.filter_eq_nil_iff]
      intro ji hji
      simp [passesFilter, hnone ji hji]
    rw [selectIssue]
    simp [hfilter]
  · exact fun filter => selectIssue_prompted_nonempty issues filter prompt input

/-- C7 (witness): the never-true filter over the sample issues gives the
no-selection outcome with no prompt. -/
theorem selectIssue_no_match_no_prompt_witness :
    selectIssue (Except.ok sampleIssues) (some (fun _ => false)) "Select issue" none
      = (.noSelection, false) :=
  (selectIssue_no_match_no_prompt sampleIssues (fun _ => false) "Select issue" none).1
    (fun _ _ => rfl)

/-- C10: every single-choice prompt runs on a non-empty option list and
every accepted numeric answer indexes a valid element: an accepted answer
yields an index below the option count (forcing at least one option),
`selectIssue` prompts only when its filtered issue list is non-empty, and
the interactive status menu is the fixed five-element list. -/
theorem prompt_safety (label : String) (items : List String) (input : Option String) :
    (∀ idx, pickFromList label items input = .picked idx →
      idx < items.length ∧ 1 ≤ items.length)
    ∧ statuses = ["Open", "In Progress", "In Review", "In Testing", "Resolved"]
    ∧ statuses.length = 5
    ∧ (∀ (issues : List JiraIssue) (filter : Option (JiraIssue → Bool))
        (prompt : String) (inp : Option String),
        (selectIssue (Except.ok issues) filter prompt inp).2 = true →
        1 ≤ (issues.filter (passesFilter filter)).length) := by
  refine ⟨?_, rfl, rfl, ?_⟩
  · intro idx hpick
    rw [pickFromList.eq_def] at hpick
    split at hpick
    · simp at hpick
    · rename_i line
      by_cases htrim : strTrim line = ""
      · rw [if_pos htrim] at hpick
        simp at hpick
      · rw [if_neg htrim] at hpick
        rcases hat : atoi (strTrim line) with _ | n
        · simp only [hat] at hpick
          simp at hpick
        · simp only [hat] at hpick
          by_cases hbound : n < 1 ∨ (items.length : Int) < n
          · rw [if_pos hbound] at hpick
            simp at hpick
          · rw [if_neg hbound] at hpick
            push_neg at hbound
            simp only [PickResult.picked.injEq] at hpick
            omega
  · intro issues filter prompt inp hprompt
    have hemp := selectIssue_prompted_nonempty issues filter prompt inp hprompt
    rcases hl : issues.filter (passesFilter filter) with _ | ⟨a, t⟩
    · rw [hl] at hemp
      simp at hemp
    · simp

/-- C10 (witness): the accepted answer "2" on a two-element option list
indexes a valid element, and the status menu has five entries. -/
theorem prompt_safety_witness :
    (1 < (["first", "second"] : List String).length
      ∧ 1 ≤ (["first", "second"] : List String).length)
    ∧ statuses.length = 5 :=
  ⟨(prompt_safety "Select" ["first", "second"] (some "2")).1 1 (by decide),
   (prompt_safety "Select" [] none).2.2.1⟩

/-! ## C8 — the move flow preserves the key's case -/

lemma moveWithKey_moved (fetchMove : Except String (List JiraIssue)) (key : String)
    (sid : Int) (sentKey msgKey : String) :
    moveWithKey fetchMove key = .moved sid sentKey msgKey →
    sentKey = key ∧ msgKey = strToUpper key := by
  rcases fetchMove with e | issues
  · intro h
    simp [moveWithKey] at h
  · rcases hfind : findActiveSprint issues with e | s
    · intro h
      rw [moveWithKey.eq_def] at h
      simp only [hfind] at h
      simp at h
    · intro h
      rw [moveWithKey.eq_def] at h
      simp only [hfind] at h
      simp only [MoveOutcome.moved.injEq] at h
      exact ⟨h.2.1.symm, h.2.2.symm⟩

lemma selectIssue_selected (fetched : Except String (List JiraIssue))
    (filter : Option (JiraIssue → Bool)) (prompt : String) (input : Option String)
    (ji : JiraIssue) :
    (selectIssue fetched filter prompt input).1 = .selected ji →
    ∃ issues, fetched = .ok issues ∧ ji ∈ issues ∧ passesFilter filter ji = true := by
  rcases fetched with e | issues
  · intro h
    rw [selectIssue] at h
    simp at h
  · intro h
    refine ⟨issues, rfl, ?_⟩
    rw [selectIssue] at h
    cases hemp : (issues.filter (passesFilter filter)).isEmpty with
    | true => simp [hemp] at h
    | false =>
      simp only [hemp, Bool.false_eq_true, if_false] at h
      rcases hpick : pickFromList prompt
          ((issues.filter (passesFilter filter)).map issueLabel) input with _ | _ | idx
      · rw [hpick] at h
        simp at h
      · rw [hpick] at h
        simp at h
      · rw [hpick] at h
        rcases hget : (issues.filter (passesFilter filter))[idx]? with _ | ji2
        · simp [hget] at h
        · simp only [hget] at h
          simp only [SelectResult.selected.injEq] at h
          subst h
          have hmem := List.getElem?_mem hget
          exact ⟨(List.mem_filter.mp hmem).1, (List.mem_filter.mp hmem).2⟩

/-- C8: in the move-only flow, the key submitted to the repository's
add-to-sprint operation is exactly the original key (supplied, or the
selected no-sprint issue's key) with its case preserved; upper-casing
applies only to the key shown in the success message. -/
theorem moveFlow_key_preserved (issueKey : String)
    (fetchSelect fetchMove : Except String (List JiraIssue)) (input : Option String) :
    (issueKey ≠ "" → ∀ sid sentKey msgKey,
        moveFlow issueKey fetchSelect fetchMove input = .moved sid sentKey msgKey →
        sentKey = issueKey ∧ msgKey = strToUpper issueKey)
    ∧ (∀ sid sentKey msgKey,
        moveFlow "" fetchSelect fetchMove input = .moved sid sentKey msgKey →
        ∃ issues ji, fetchSelect = .ok issues ∧ ji ∈ issues ∧ ji.fields.sprints = []
          ∧ sentKey = ji.key ∧ msgKey = strToUpper ji.key) := by
  constructor
  · intro hkey sid sentKey msgKey h
    rw [moveFlow, if_neg hkey] at h
    exact moveWithKey_moved fetchMove issueKey sid sentKey msgKey h
  · intro sid sentKey msgKey h
    rw [moveFlow, if_pos rfl] at h
    rcases hsel : selectIssue fetchSelect (some (fun j => j.fields.sprints.isEmpty))
        "Select issue to move" input with ⟨res, b⟩
    rw [hsel] at h
    rcases res with e | _ | _ | ji
    · simp at h
    · simp at h
    · simp at h
    · have hk := moveWithKey_moved fetchMove ji.key sid sentKey msgKey h
      have hs : (selectIssue fetchSelect (some (fun j => j.fields.sprints.isEmpty))
          "Select issue to move" input).1 = .selected ji := by
        rw [hsel]
      rcases selectIssue_selected _ _ _ _ _ hs with ⟨issues, hfetch, hmem, hfil⟩
      refine ⟨issues, ji, hfetch, hmem, ?_, hk.1, hk.2⟩
      simpa [passesFilter, List.isEmpty_iff] using hfil

/-- C8 (witness): moving the supplied key "abc-1" (with the sample issues
fetched for the move step) submits the key unchanged; only the message key
is upper-cased. -/
theorem moveFlow_key_preserved_witness :
    "abc-1" = "abc-1" ∧ "ABC-1" = strToUpper "abc-1" :=
  (moveFlow_key_preserved "abc-1" (Except.error "unused") (Except.ok sampleIssues) none).1
    (by decide) 1 "abc-1" "ABC-1" (by decide)

end JiraCli
